import Mathlib

/-!
Verification of the AI-grammar-checker repository: a shallow embedding of
`telegram_client.py`, `input_server.py` and `main.py`, together with proofs
of the specified properties of response decoding, the listener/hand-off
queue, the correlation wait (`check_grammar`), the HTTP intake handler and
the fallback-result construction.
-/

namespace GrammarChecker

/--
JSON values as produced by the Python function `json.loads`.  Number lexemes are kept
as raw strings (their numeric value is irrelevant to this development);
object fields keep source order, with dictionary semantics (last key wins)
recovered by `objGet`.
-/
inductive JVal : Type where
  | null : JVal
  | bool (b : Bool) : JVal
  | num (raw : String) : JVal
  | str (s : String) : JVal
  | arr (elems : List JVal) : JVal
  | obj (fields : List (String × JVal)) : JVal

/-- JSON whitespace accepted by `json.loads` between tokens. -/
def jsonWs (c : Char) : Bool :=
  c = ' ' || c = '\t' || c = '\n' || c = '\r'

/-- Drop leading JSON whitespace. -/
def skipWs : List Char → List Char
  | [] => []
  | c :: cs => if jsonWs c then skipWs cs else c :: cs

/-- Value of a hexadecimal digit, as accepted in `\uXXXX` escapes
(code points: `0`–`9` are 48–57, `a`–`f` are 97–102, `A`–`F` are 65–70). -/
def hexVal (c : Char) : Option Nat :=
  let n := c.toNat
  if 48 ≤ n ∧ n ≤ 57 then some (n - 48)
  else if 97 ≤ n ∧ n ≤ 102 then some (n - 87)
  else if 65 ≤ n ∧ n ≤ 70 then some (n - 55)
  else none

/--
Body of a JSON string literal (after the opening quote), per `json.loads`
with its default `strict=True`: raw control characters are rejected, the
short escapes and `\uXXXX` are accepted.  Returns the decoded characters
and the input remaining after the closing quote.
-/
def parseStringBody : List Char → Option (List Char × List Char)
  | [] => none
  | c :: rest =>
    if c = '"' then some ([], rest)
    else if c = '\\' then
      match rest with
      | [] => none
      | e :: rest2 =>
        if e = '"' then (parseStringBody rest2).map (fun p => ('"' :: p.1, p.2))
        else if e = '\\' then (parseStringBody rest2).map (fun p => ('\\' :: p.1, p.2))
        else if e = '/' then (parseStringBody rest2).map (fun p => ('/' :: p.1, p.2))
        else if e = 'b' then (parseStringBody rest2).map (fun p => (Char.ofNat 8 :: p.1, p.2))
        else if e = 'f' then (parseStringBody rest2).map (fun p => (Char.ofNat 12 :: p.1, p.2))
        else if e = 'n' then (parseStringBody rest2).map (fun p => ('\n' :: p.1, p.2))
        else if e = 'r' then (parseStringBody rest2).map (fun p => ('\r' :: p.1, p.2))
        else if e = 't' then (parseStringBody rest2).map (fun p => ('\t' :: p.1, p.2))
        else if e = 'u' then
          match rest2 with
          | h1 :: h2 :: h3 :: h4 :: rest3 =>
            match hexVal h1, hexVal h2, hexVal h3, hexVal h4 with
            | some a, some b, some c2, some d =>
              (parseStringBody rest3).map
                (fun p => (Char.ofNat (4096 * a + 256 * b + 16 * c2 + d) :: p.1, p.2))
            | _, _, _, _ => none
          | _ => none
        else none
    else if c.toNat < 32 then none
    else (parseStringBody rest).map (fun p => (c :: p.1, p.2))

/-- Longest digit run at the head of the input. -/
def takeDigits : List Char → List Char × List Char
  | [] => ([], [])
  | c :: cs =>
    if c.isDigit then
      let p := takeDigits cs
      (c :: p.1, p.2)
    else ([], c :: cs)

/--
A JSON number lexeme: optional minus sign, integer part (`0` or a nonzero
digit followed by digits), optional fraction, optional exponent.  Returns
the lexeme and the remaining input.  (Python additionally accepts the
non-standard `NaN`/`Infinity` constants; no property here depends on them.)
-/
def parseNumberLex (input : List Char) : Option (List Char × List Char) :=
  let (sign, afterSign) :=
    match input with
    | '-' :: cs => (['-'], cs)
    | cs => (([] : List Char), cs)
  match afterSign with
  | [] => none
  | c :: cs =>
    if ¬ c.isDigit then none
    else
      let (intRest, afterInt) := if c = '0' then ([], cs) else takeDigits cs
      let intPart := c :: intRest
      let (fracPart, afterFrac) :=
        match afterInt with
        | '.' :: ds =>
          match takeDigits ds with
          | ([], _) => (none, afterInt)
          | (fd, r) => (some ('.' :: fd), r)
        | _ => (none, afterInt)
      match fracPart with
      | none =>
        match afterInt with
        | '.' :: _ => none
        | _ =>
          let (expPart, afterExp) := expLex afterInt
          match expPart with
          | none =>
            match afterInt with
            | 'e' :: _ => none
            | 'E' :: _ => none
            | _ => some (sign ++ intPart, afterInt)
          | some ep => some (sign ++ intPart ++ ep, afterExp)
      | some fp =>
        let (expPart, afterExp) := expLex afterFrac
        match expPart with
        | none =>
          match afterFrac with
          | 'e' :: _ => none
          | 'E' :: _ => none
          | _ => some (sign ++ intPart ++ fp, afterFrac)
        | some ep => some (sign ++ intPart ++ fp ++ ep, afterExp)
where
  /-- Exponent part `e`/`E`, optional sign, one or more digits. -/
  expLex : List Char → Option (List Char) × List Char
  | e :: rest =>
    if e = 'e' ∨ e = 'E' then
      let (sgn, ds) :=
        match rest with
        | '+' :: r => (['+'], r)
        | '-' :: r => (['-'], r)
        | r => (([] : List Char), r)
      match takeDigits ds with
      | ([], _) => (none, e :: rest)
      | (dd, r) => (some (e :: sgn ++ dd), r)
    else (none, e :: rest)
  | [] => (none, [])

mutual

/--
Fuel-indexed JSON value parsing, modelling `json.loads` acceptance: skips
leading whitespace, then a string, array, object, literal or number.
Returns the value and the remaining input.
-/
def parseVal : Nat → List Char → Option (JVal × List Char)
  | 0, _ => none
  | fuel + 1, input =>
    match skipWs input with
    | [] => none
    | c :: rest =>
      if c = '"' then
        (parseStringBody rest).map (fun p => (JVal.str (String.mk p.1), p.2))
      else if c = '[' then
        match skipWs rest with
        | [] => none
        | c2 :: rest2 =>
          if c2 = ']' then some (JVal.arr [], rest2)
          else
            match parseVal fuel (c2 :: rest2) with
            | none => none
            | some (v, r) =>
              (parseArrRest fuel r).map (fun p => (JVal.arr (v :: p.1), p.2))
      else if c = '\x7b' then
        match skipWs rest with
        | [] => none
        | c2 :: rest2 =>
          if c2 = '\x7d' then some (JVal.obj [], rest2)
          else
            match parseMember fuel (c2 :: rest2) with
            | none => none
            | some (k, v, r) =>
              (parseObjRest fuel r).map (fun p => (JVal.obj ((k, v) :: p.1), p.2))
      else if c = 't' then
        match rest with
        | 'r' :: 'u' :: 'e' :: r => some (JVal.bool true, r)
        | _ => none
      else if c = 'f' then
        match rest with
        | 'a' :: 'l' :: 's' :: 'e' :: r => some (JVal.bool false, r)
        | _ => none
      else if c = 'n' then
        match rest with
        | 'u' :: 'l' :: 'l' :: r => some (JVal.null, r)
        | _ => none
      else
        (parseNumberLex (c :: rest)).map (fun p => (JVal.num (String.mk p.1), p.2))

/-- After one array element: `,` then another element, or the closing `]`. -/
def parseArrRest : Nat → List Char → Option (List JVal × List Char)
  | 0, _ => none
  | fuel + 1, input =>
    match skipWs input with
    | [] => none
    | c :: rest =>
      if c = ']' then some ([], rest)
      else if c = ',' then
        match parseVal fuel rest with
        | none => none
        | some (v, r) => (parseArrRest fuel r).map (fun p => (v :: p.1, p.2))
      else none

/-- One object member: a string key, `:`, then a value. -/
def parseMember : Nat → List Char → Option (String × JVal × List Char)
  | 0, _ => none
  | fuel + 1, input =>
    match skipWs input with
    | [] => none
    | c :: rest =>
      if c = '"' then
        match parseStringBody rest with
        | none => none
        | some (k, r) =>
          match skipWs r with
          | [] => none
          | c2 :: r2 =>
            if c2 = ':' then
              (parseVal fuel r2).map (fun p => (String.mk k, p.1, p.2))
            else none
      else none

/-- After one object member: `,` then another member, or the closing `}`. -/
def parseObjRest : Nat → List Char → Option (List (String × JVal) × List Char)
  | 0, _ => none
  | fuel + 1, input =>
    match skipWs input with
    | [] => none
    | c :: rest =>
      if c = '\x7d' then some ([], rest)
      else if c = ',' then
        match parseMember fuel rest with
        | none => none
        | some (k, v, r) => (parseObjRest fuel r).map (fun p => ((k, v) :: p.1, p.2))
      else none

end

/--
Model of `json.loads` on a character list: parse one value (with ample fuel),
then require only whitespace to remain.  `none` models a raised
`json.JSONDecodeError`.
-/
def jsonLoads (l : List Char) : Option JVal :=
  match parseVal (l.length + 1) l with
  | some (v, rest) => if skipWs rest = [] then some v else none
  | none => none

/-- Hexadecimal digit character (lowercase), for `\u00XX` escapes. -/
def hexDigit (n : Nat) : Char :=
  if n < 10 then Char.ofNat ('0'.toNat + n) else Char.ofNat ('a'.toNat + n - 10)

/--
Standard JSON escaping of one character: quote, backslash and the short
control escapes, `\u00XX` for the remaining control characters, all other
characters literal.
-/
def escapeChar (c : Char) : List Char :=
  if c = '"' then ['\\', '"']
  else if c = '\\' then ['\\', '\\']
  else if c = '\n' then ['\\', 'n']
  else if c = '\r' then ['\\', 'r']
  else if c = '\t' then ['\\', 't']
  else if c.toNat = 8 then ['\\', 'b']
  else if c.toNat = 12 then ['\\', 'f']
  else if c.toNat < 32 then
    ['\\', 'u', '0', '0', hexDigit (c.toNat / 16), hexDigit (c.toNat % 16)]
  else [c]

/-- JSON escaping of a character sequence. -/
def escapeStr : List Char → List Char
  | [] => []
  | c :: cs => escapeChar c ++ escapeStr cs

/-- A JSON string literal for `s`. -/
def printStr (s : String) : List Char :=
  '"' :: (escapeStr s.data ++ ['"'])

mutual

/-- Compact JSON serialization, shaped to mirror the parser exactly. -/
def printVal : JVal → List Char
  | JVal.null => ['n', 'u', 'l', 'l']
  | JVal.bool true => ['t', 'r', 'u', 'e']
  | JVal.bool false => ['f', 'a', 'l', 's', 'e']
  | JVal.num raw => raw.data
  | JVal.str s => printStr s
  | JVal.arr [] => ['[', ']']
  | JVal.arr (v :: vs) => '[' :: (printVal v ++ printArrRest vs)
  | JVal.obj [] => ['\x7b', '\x7d']
  | JVal.obj ((k, v) :: fs) => '\x7b' :: (printStr k ++ ':' :: printVal v ++ printObjRest fs)

/-- Serialization of the elements of an array after the first. -/
def printArrRest : List JVal → List Char
  | [] => [']']
  | v :: vs => ',' :: (printVal v ++ printArrRest vs)

/-- Serialization of the members of an object after the first. -/
def printObjRest : List (String × JVal) → List Char
  | [] => ['\x7d']
  | (k, v) :: fs => ',' :: (printStr k ++ ':' :: printVal v ++ printObjRest fs)

end

mutual

/-- Fuel required to parse a serialized value back. -/
def sizeVal : JVal → Nat
  | JVal.arr vs => 1 + sizeList vs
  | JVal.obj fs => 1 + sizeFields fs
  | _ => 1

/-- Fuel required for a serialized array tail. -/
def sizeList : List JVal → Nat
  | [] => 1
  | v :: vs => 1 + max (sizeVal v) (sizeList vs)

/-- Fuel required for a serialized object tail. -/
def sizeFields : List (String × JVal) → Nat
  | [] => 1
  | (_, v) :: fs => 1 + max (sizeVal v + 1) (sizeFields fs)

end

mutual

/-- Values whose serialization is exactly re-parsed (no raw number lexemes). -/
def wfVal : JVal → Prop
  | JVal.num _ => False
  | JVal.arr vs => wfList vs
  | JVal.obj fs => wfFields fs
  | _ => True

/-- Predicate `wfVal` holding on every array element. -/
def wfList : List JVal → Prop
  | [] => True
  | v :: vs => wfVal v ∧ wfList vs

/-- Predicate `wfVal` holding on every object member value. -/
def wfFields : List (String × JVal) → Prop
  | [] => True
  | (_, v) :: fs => wfVal v ∧ wfFields fs

end

/-!
## Embedding of `telegram_client.py`
-/

/--
Whitespace stripped by the Python method `str.strip()` and matched by `\s` in the
fence-removal patterns (ASCII subset; no property here involves the
additional Unicode space characters Python also strips).
-/
def pyWs (c : Char) : Bool :=
  c = ' ' || c = '\t' || c = '\n' || c = '\r' || c = '\x0b' || c = '\x0c'

/-- Python `str.strip()`: remove leading and trailing whitespace. -/
def stripChars (l : List Char) : List Char :=
  ((l.dropWhile pyWs).reverse.dropWhile pyWs).reverse

/-- Whether `a` is a leading segment of `b` (Python `str.startswith`). -/
def hasPre : List Char → List Char → Bool
  | [], _ => true
  | _ :: _, [] => false
  | p :: ps, c :: cs => p == c && hasPre ps cs

/--
Model of `re.sub(r'^```json\s*', '', t)`: if the text begins with the fence opener
`\x60\x60\x60json`, remove it together with the whitespace following it;
the `^` anchor permits at most one match, at the start.
-/
def stripOpenFence (l : List Char) : List Char :=
  if hasPre "```json".data l then (l.drop 7).dropWhile pyWs else l

/--
Model of `re.sub(r'\s*```$', '', t)` on text with no trailing whitespace (it was
stripped first): if the text ends with the fence closer, remove it together
with the contiguous whitespace run before it.
-/
def stripCloseFence (l : List Char) : List Char :=
  if hasPre "```".data l.reverse then ((l.reverse.drop 3).dropWhile pyWs).reverse else l

/--
The two distinct failure values `check_grammar` raises, by the message of
the `Exception` the source constructs: `timeout` for the caught
`asyncio.TimeoutError`, `invalidJson` for the caught `json.JSONDecodeError`.
(Transmission failures from `send_message` are not represented here: the
source does not catch them, so they propagate as exception values of the
own classes of the chat library, distinct from both of these.)
-/
inductive BotError : Type where
  | timeout : BotError
  | invalidJson : BotError
deriving DecidableEq

/-- The message carried by the raised `Exception`. -/
def errMsg : BotError → String
  | BotError.timeout => "Bot did not respond in time"
  | BotError.invalidJson => "Invalid JSON response from bot"

/-- The fixed tag literal marking a reply as intended for this system. -/
def responseTag : String := "RESPONSE:"

/--
The text-preprocessing pipeline of `TelegramGrammarBot._parse_response`:
drop the first `len("RESPONSE:")` characters (unconditionally — the prefix
is never checked), strip, remove an optional ```json fence opener and
closer, strip again.
-/
def stripTagAndFence (response : String) : List Char :=
  let json_text := stripChars (response.data.drop responseTag.length)
  let json_text := stripOpenFence json_text
  let json_text := stripCloseFence json_text
  stripChars json_text

/--
Embeds `TelegramGrammarBot._parse_response`: preprocess, then `json.loads`;
a parse failure is re-raised as `Exception("Invalid JSON response from bot")`.
-/
def parse_response (response : String) : Except BotError JVal :=
  match jsonLoads (stripTagAndFence response) with
  | some v => Except.ok v
  | none => Except.error BotError.invalidJson

def promptPrefix : String :=
  "You are an English-language teacher and translator.\n\n            First, detect the input language:\n            - If the input is **Persian (Farsi)**: translate it to natural, correct **English** and respond with **ONLY** the JSON format below (no extra keys). In this case, set \"error_analysis\" to an empty array [].\n            - If the input is **English**: correct grammar, spelling, punctuation, and phrasing, and then explain the corrections with grammar rules. Also provide a **Persian translation of the corrected English**.\n\n            For English input, your job is to:\n            1. Provide the corrected English sentence/text as \"corrected_text\".\n            2. Provide the Persian translation of \"corrected_text\" as \"persian_translation\".\n            3. Explain each correction in \"error_analysis\", showing:\n            - the incorrect part (\"original\"),\n            - the corrected part (\"corrected\"),\n            - a short, clear explanation (\"explanation\") that includes the **grammar rule** (name the rule and briefly state it), plus a minimal example if helpful.\n\n            Guidelines for explanations:\n            - Be concise but more grammar-focused than usual.\n            - Use clear rule names (e.g., Subject–Verb Agreement, Articles (a/an/the), Tense consistency, Prepositions, Word order, Countable vs. uncountable nouns, Parallel structure, Punctuation, Collocations).\n            - Prefer 1–3 sentences per explanation; avoid long lectures.\n            - If nothing is wrong, still return the JSON, with \"error_analysis\": [].\n\n            Your entire response must:\n            * Start with: **RESPONSE:**\n            * Contain **only valid JSON** after that (no markdown, no backticks)\n            * Use the exact structure below (always include all keys):\n\n            \x7b\n            \"corrected_text\": \"...\",\n            \"persian_translation\": \"...\",\n            \"error_analysis\": [\n                \x7b\n                \"original\": \"...\",\n                \"corrected\": \"...\",\n                \"explanation\": \"...\"\n                \x7d\n            ]\n            \x7d\n\n            Here is the text:\n            "

/-- Embeds `TelegramGrammarBot._build_prompt`: the fixed template with the text
of the request inserted at the end. -/
def build_prompt (text : String) : String :=
  promptPrefix ++ text

/-- An inbound chat message: sender identity and raw content. -/
structure InEvent : Type where
  sender : String
  text : String
deriving DecidableEq

/--
One step of the inbound listener registered in `TelegramGrammarBot.start`:
the `events.NewMessage(from_users=self.bot_username)` registration filters
on the sender, and the handler body enqueues the message text onto
`self.response_queue` (an unbounded `asyncio.Queue`) iff it starts with
`"RESPONSE:"`.  All other messages are ignored.
-/
def handlerStep (botUsername : String) (queue : List String) (e : InEvent) : List String :=
  if e.sender == botUsername && hasPre responseTag.data e.text.data then
    queue ++ [e.text]
  else queue

/-- The queue contents after the listener observes `evs` in arrival order. -/
def runListener (botUsername : String) (queue : List String) (evs : List InEvent) :
    List String :=
  evs.foldl (handlerStep botUsername) queue

/--
The `asyncio.wait_for(self.response_queue.get(), timeout)` step of
`check_grammar`: `reply` is the message obtained from the hand-off queue
within the timeout window, `none` if the wait expired, in which case the
caught `asyncio.TimeoutError` is re-raised as the timeout `Exception`.
-/
def await_reply (reply : Option String) : Except BotError String :=
  match reply with
  | some m => Except.ok m
  | none => Except.error BotError.timeout

/-- An observable step of one `check_grammar` exchange, in execution order. -/
inductive GEvent : Type where
  | drained (msg : String) : GEvent
  | sent (prompt : String) : GEvent
  | received (msg : String) : GEvent
  | timedOut : GEvent
deriving DecidableEq

/-- Trace and result of one `check_grammar` call. -/
structure ExchangeResult : Type where
  trace : List GEvent
  outcome : Except BotError JVal

/--
Embeds `TelegramGrammarBot.check_grammar`: build the prompt, drain every message
still pending in the hand-off queue (`while not empty: get`), send the
prompt, then wait for the next queued message or time out.  `pending` is
the queue contents at entry; `reply` is the first message enqueued after
the send and before the deadline (`none` if no such message arrives).
-/
def check_grammar (pending : List String) (text : String) (reply : Option String) :
    ExchangeResult :=
  { trace :=
      pending.map GEvent.drained ++
        GEvent.sent (build_prompt text) ::
          (match reply with
           | some r => [GEvent.received r]
           | none => [GEvent.timedOut]),
    outcome := (await_reply reply).bind parse_response }

/-!
## Embedding of `input_server.py`
-/

/--
Field lookup in a parsed JSON object with Python `dict` semantics: for
duplicated keys the last occurrence wins (`json.loads` builds a `dict`).
-/
def objGet (fields : List (String × JVal)) (key : String) : Option JVal :=
  match fields with
  | [] => none
  | (k, v) :: rest =>
    match objGet rest key with
    | some w => some w
    | none => if k == key then some v else none

/-- Truthiness of a number lexeme: some significand digit is nonzero
(exponent underflow to zero is not modelled; no property depends on it). -/
def numTruthy (raw : String) : Bool :=
  (raw.data.takeWhile (fun c => c ≠ 'e' ∧ c ≠ 'E')).any (fun c => c.isDigit && c ≠ '0')

/-- Python truthiness (`not text`) of a decoded JSON value. -/
def pyTruthy : JVal → Bool
  | JVal.null => false
  | JVal.bool b => b
  | JVal.num raw => numTruthy raw
  | JVal.str s => !(s == "")
  | JVal.arr l => !l.isEmpty
  | JVal.obj l => !l.isEmpty

/-- The HTTP response of one `/check` request, and whether the configured
text handler ran. -/
structure CheckOutcome : Type where
  status : Nat
  body : JVal
  handlerCalled : Bool

/--
Embeds `InputServer._handle_check`: `reqBody` is the parsed request body (`none`
when `request.json()` raises, which the outer `except` turns into a 500
with an `error` field); a missing `text` key defaults to `""`; a falsy
`text` yields 400, an unset handler 500, otherwise the result of the handler
is returned with status 200.  A non-object body makes `data.get` raise,
likewise caught as a 500.
-/
def handle_check (reqBody : Option JVal) (handlerSet : Bool) (handler : JVal → JVal) :
    CheckOutcome :=
  match reqBody with
  | none =>
    { status := 500, body := JVal.obj [("error", JVal.str "request body is not valid JSON")],
      handlerCalled := false }
  | some data =>
    match data with
    | JVal.obj fields =>
      let text := (objGet fields "text").getD (JVal.str "")
      if pyTruthy text = false then
        { status := 400, body := JVal.obj [("error", JVal.str "No text provided")],
          handlerCalled := false }
      else if handlerSet = false then
        { status := 500, body := JVal.obj [("error", JVal.str "Handler not configured")],
          handlerCalled := false }
      else
        { status := 200, body := handler text, handlerCalled := true }
    | _ =>
      { status := 500, body := JVal.obj [("error", JVal.str "request body is not an object")],
        handlerCalled := false }

/-!
## Embedding of `main.py`
-/

/--
The fallback dictionary `GrammarCheckerApp._handle_text` builds when the
exchange raises `e`: the original text as `corrected_text` and a single
synthetic entry whose explanation is `f"Error: \x7bstr(e)\x7d"`.
-/
def error_result (text : String) (e : BotError) : JVal :=
  JVal.obj
    [("corrected_text", JVal.str text),
     ("error_analysis", JVal.arr
       [JVal.obj
         [("original", JVal.str text),
          ("corrected", JVal.str text),
          ("explanation", JVal.str ("Error: " ++ errMsg e))]])]

/--
Embeds `GrammarCheckerApp._handle_text`: return the decoded result of the
exchange, or on any raised failure the fallback `error_result`; it never
re-raises.
-/
def handle_text (text : String) (outcome : Except BotError JVal) : JVal :=
  match outcome with
  | Except.ok result => result
  | Except.error e => error_result text e

/-!
## The DecodedResult shape of the specification
-/

/-- One correction entry of a decoded result. -/
structure Correction : Type where
  original : String
  corrected : String
  explanation : String
deriving DecidableEq

/-- A DecodedResult-shaped document: required `corrected_text` and
`error_analysis`, optional `persian_translation`. -/
structure DecodedResult : Type where
  corrected_text : String
  persian_translation : Option String
  error_analysis : List Correction
deriving DecidableEq

/-- The JSON object of one correction entry. -/
def correctionToJVal (c : Correction) : JVal :=
  JVal.obj
    [("original", JVal.str c.original),
     ("corrected", JVal.str c.corrected),
     ("explanation", JVal.str c.explanation)]

/-- The JSON document of a DecodedResult-shaped structure. -/
def resultToJVal (r : DecodedResult) : JVal :=
  JVal.obj
    (("corrected_text", JVal.str r.corrected_text) ::
      ((match r.persian_translation with
        | some p => [("persian_translation", JVal.str p)]
        | none => []) ++
       [("error_analysis", JVal.arr (r.error_analysis.map correctionToJVal))]))

/--
Modelled from the spec: "encoding a DecodedResult-shaped structured
document" — the repository contains no encoder (the external agent produces
the reply), so the round-trip property supplies the standard JSON
serialization of the document.
-/
def encodeResult (r : DecodedResult) : String :=
  String.mk (printVal (resultToJVal r))

/-- Read one correction entry back from its JSON object. -/
def correctionOfJVal : JVal → Option Correction
  | JVal.obj fields =>
    match objGet fields "original", objGet fields "corrected",
        objGet fields "explanation" with
    | some (JVal.str o), some (JVal.str c), some (JVal.str e) => some ⟨o, c, e⟩
    | _, _, _ => none
  | _ => none

/-- Read a list of correction entries back. -/
def correctionsOfJVal : List JVal → Option (List Correction)
  | [] => some []
  | v :: vs =>
    match correctionOfJVal v, correctionsOfJVal vs with
    | some c, some cs => some (c :: cs)
    | _, _ => none

/-- Read a DecodedResult-shaped structure back from a JSON document. -/
def resultOfJVal : JVal → Option DecodedResult
  | JVal.obj fields =>
    match objGet fields "corrected_text", objGet fields "error_analysis" with
    | some (JVal.str ct), some (JVal.arr ea) =>
      match correctionsOfJVal ea with
      | none => none
      | some cs =>
        match objGet fields "persian_translation" with
        | none => some ⟨ct, none, cs⟩
        | some (JVal.str p) => some ⟨ct, some p, cs⟩
        | some _ => none
    | _, _ => none
  | _ => none

theorem skipWs_cons_of_not_ws {c : Char} (l : List Char) (h : jsonWs c = false) :
    skipWs (c :: l) = c :: l := by
  simp [skipWs, h]

theorem hexVal_hexDigit : ∀ n < 16, hexVal (hexDigit n) = some n := by decide

/-- Escaped string bodies parse back to the original characters. -/
theorem parseStringBody_escape (s rest : List Char) :
    parseStringBody (escapeStr s ++ '"' :: rest) = some (s, rest) := by
  induction s with
  | nil =>
    rw [escapeStr, List.nil_append, parseStringBody.eq_def]
    simp
  | cons c cs ih =>
    rw [escapeStr, List.append_assoc]
    by_cases h1 : c = '"'
    · subst h1
      simp only [escapeChar, if_pos rfl, List.cons_append, List.nil_append]
      rw [parseStringBody.eq_def]
      simp [ih]
    by_cases h2 : c = '\\'
    · subst h2
      simp only [escapeChar, List.cons_append, List.nil_append]
      norm_num
      rw [parseStringBody.eq_def]
      simp [ih]
    by_cases h3 : c = '\n'
    · subst h3
      simp only [escapeChar, List.cons_append, List.nil_append]
      norm_num
      rw [parseStringBody.eq_def]
      simp [ih]
    by_cases h4 : c = '\r'
    · subst h4
      simp only [escapeChar, List.cons_append, List.nil_append]
      norm_num
      rw [parseStringBody.eq_def]
      simp [ih]
    by_cases h5 : c = '\t'
    · subst h5
      simp only [escapeChar, List.cons_append, List.nil_append]
      norm_num
      rw [parseStringBody.eq_def]
      simp [ih]
    by_cases h6 : c.toNat = 8
    · have hc : c = Char.ofNat 8 := by rw [← h6, Char.ofNat_toNat]
      simp only [escapeChar, h1, h2, h3, h4, h5, h6, if_neg, if_pos, ite_true, ite_false,
        List.cons_append, List.nil_append]
      rw [parseStringBody.eq_def]
      simp [ih, hc]
    by_cases h7 : c.toNat = 12
    · have hc : c = Char.ofNat 12 := by rw [← h7, Char.ofNat_toNat]
      simp only [escapeChar, h1, h2, h3, h4, h5, h6, h7, if_neg, if_pos, ite_true, ite_false,
        List.cons_append, List.nil_append]
      rw [parseStringBody.eq_def]
      simp [ih, hc]
    by_cases h8 : c.toNat < 32
    · have hdiv : c.toNat / 16 < 16 := by omega
      have hmod : c.toNat % 16 < 16 := by omega
      have e1 : hexVal (hexDigit (c.toNat / 16)) = some (c.toNat / 16) :=
        hexVal_hexDigit _ hdiv
      have e2 : hexVal (hexDigit (c.toNat % 16)) = some (c.toNat % 16) :=
        hexVal_hexDigit _ hmod
      have e0 : hexVal '0' = some 0 := rfl
      have hrec : 4096 * 0 + 256 * 0 + 16 * (c.toNat / 16) + c.toNat % 16 = c.toNat := by
        omega
      simp only [escapeChar, h1, h2, h3, h4, h5, h6, h7, h8, if_neg, if_pos, ite_true,
        ite_false, List.cons_append, List.nil_append]
      rw [parseStringBody.eq_def]
      simp [e0, e1, e2, ih, hrec, Char.ofNat_toNat]
      have hy : 16 * (c.toNat / 16) + c.toNat % 16 = c.toNat := by omega
      rw [hy, Char.ofNat_toNat]
    · have h9 : ¬ c.toNat < 32 := h8
      simp only [escapeChar, h1, h2, h3, h4, h5, h6, h7, h9, if_neg, ite_false,
        List.cons_append, List.nil_append]
      rw [parseStringBody.eq_def]
      simp [h1, h2, h9, ih]

theorem sizeVal_pos (v : JVal) : 1 ≤ sizeVal v := by
  cases v <;> simp [sizeVal]

theorem sizeList_pos (vs : List JVal) : 1 ≤ sizeList vs := by
  cases vs <;> simp [sizeList]

theorem sizeFields_pos (fs : List (String × JVal)) : 1 ≤ sizeFields fs := by
  cases fs with
  | nil => simp [sizeFields]
  | cons f fs => obtain ⟨k, v⟩ := f; simp [sizeFields]

/-- A serialized well-formed value starts with a non-whitespace, non-closing character. -/
theorem printVal_head (v : JVal) (h : wfVal v) :
    ∃ c cs, printVal v = c :: cs ∧ jsonWs c = false ∧ c ≠ ']' ∧ c ≠ '\x7d' := by
  cases v with
  | num raw => exact absurd h (by simp [wfVal])
  | null => refine ⟨'n', _, rfl, ?_, ?_, ?_⟩ <;> decide
  | bool b =>
    cases b with
    | true => refine ⟨'t', _, rfl, ?_, ?_, ?_⟩ <;> decide
    | false => refine ⟨'f', _, rfl, ?_, ?_, ?_⟩ <;> decide
  | str s => refine ⟨'"', _, rfl, ?_, ?_, ?_⟩ <;> decide
  | arr es =>
    cases es with
    | nil => refine ⟨'[', _, rfl, ?_, ?_, ?_⟩ <;> decide
    | cons v vs => refine ⟨'[', _, rfl, ?_, ?_, ?_⟩ <;> decide
  | obj fs =>
    cases fs with
    | nil => refine ⟨'\x7b', _, rfl, ?_, ?_, ?_⟩ <;> decide
    | cons f fs =>
      obtain ⟨k, v⟩ := f
      refine ⟨'\x7b', _, rfl, ?_, ?_, ?_⟩ <;> decide

/--
Parsing inverts serialization, for every value whose serialization lies in
the grammar of the parser, given fuel at least the `sizeVal` of the value.
-/
theorem parse_printVal : ∀ fuel : Nat,
    (∀ v rest, wfVal v → sizeVal v ≤ fuel →
      parseVal fuel (printVal v ++ rest) = some (v, rest)) ∧
    (∀ vs rest, wfList vs → sizeList vs ≤ fuel →
      parseArrRest fuel (printArrRest vs ++ rest) = some (vs, rest)) ∧
    (∀ k v rest, wfVal v → sizeVal v + 1 ≤ fuel →
      parseMember fuel (printStr k ++ ':' :: printVal v ++ rest) = some (k, v, rest)) ∧
    (∀ fs rest, wfFields fs → sizeFields fs ≤ fuel →
      parseObjRest fuel (printObjRest fs ++ rest) = some (fs, rest)) := by
  intro fuel
  induction fuel with
  | zero =>
    refine ⟨?_, ?_, ?_, ?_⟩
    · intro v rest _ hsz; have := sizeVal_pos v; omega
    · intro vs rest _ hsz; have := sizeList_pos vs; omega
    · intro k v rest _ hsz; have := sizeVal_pos v; omega
    · intro fs rest _ hsz; have := sizeFields_pos fs; omega
  | succ fuel ih =>
    obtain ⟨ihV, ihA, ihM, ihO⟩ := ih
    have stepV : ∀ v rest, wfVal v → sizeVal v ≤ fuel + 1 →
        parseVal (fuel + 1) (printVal v ++ rest) = some (v, rest) := by
      intro v rest hwf hsz
      cases v with
      | null =>
        have hp : printVal JVal.null = ['n', 'u', 'l', 'l'] := rfl
        rw [hp, parseVal.eq_def]
        simp [skipWs_cons_of_not_ws, jsonWs]
      | bool b =>
        cases b with
        | true =>
          have hp : printVal (JVal.bool true) = ['t', 'r', 'u', 'e'] := rfl
          rw [hp, parseVal.eq_def]
          simp [skipWs_cons_of_not_ws, jsonWs]
        | false =>
          have hp : printVal (JVal.bool false) = ['f', 'a', 'l', 's', 'e'] := rfl
          rw [hp, parseVal.eq_def]
          simp [skipWs_cons_of_not_ws, jsonWs]
      | num raw => exact absurd hwf (by simp [wfVal])
      | str s =>
        have hp : printVal (JVal.str s) = '"' :: (escapeStr s.data ++ ['"']) := rfl
        rw [hp, parseVal.eq_def]
        simp only [List.cons_append, List.append_assoc, List.singleton_append]
        rw [skipWs_cons_of_not_ws _ (by decide)]
        simp [parseStringBody_escape]
      | arr es =>
        cases es with
        | nil =>
          have hp : printVal (JVal.arr []) = ['[', ']'] := rfl
          rw [hp, parseVal.eq_def]
          simp [skipWs_cons_of_not_ws, jsonWs]
        | cons v vs =>
          have hwf' : wfVal v ∧ wfList vs := hwf
          have hsv : sizeVal v ≤ fuel := by
            have h1 := le_max_left (sizeVal v) (sizeList vs)
            simp [sizeVal, sizeList] at hsz; omega
          have hsl : sizeList vs ≤ fuel := by
            have h1 := le_max_right (sizeVal v) (sizeList vs)
            simp [sizeVal, sizeList] at hsz; omega
          have hp : printVal (JVal.arr (v :: vs)) =
              '[' :: (printVal v ++ printArrRest vs) := rfl
          obtain ⟨c, cs, hpv, hws, hne1, hne2⟩ := printVal_head v hwf'.1
          have hrw : c :: (cs ++ (printArrRest vs ++ rest)) =
              printVal v ++ (printArrRest vs ++ rest) := by
            rw [hpv]; simp
          rw [hp, parseVal.eq_def, hpv]
          simp only [List.cons_append, List.append_assoc]
          simp only [skipWs_cons_of_not_ws _ (show jsonWs '[' = false from by decide),
            skipWs_cons_of_not_ws _ hws]
          simp only [show (('[' : Char) = '"') = False from by simp,
            show (('[' : Char) = '[') = True from by simp, if_true, if_false,
            ite_true, ite_false]
          rw [if_neg hne1, hrw, ihV v _ hwf'.1 hsv]
          simp [ihA vs rest hwf'.2 hsl]
      | obj fs =>
        cases fs with
        | nil =>
          have hp : printVal (JVal.obj []) = ['\x7b', '\x7d'] := rfl
          rw [hp, parseVal.eq_def]
          simp [skipWs_cons_of_not_ws, jsonWs]
        | cons f fs =>
          obtain ⟨k, v⟩ := f
          have hwf' : wfVal v ∧ wfFields fs := hwf
          have hsv : sizeVal v + 1 ≤ fuel := by
            have h1 := le_max_left (sizeVal v + 1) (sizeFields fs)
            simp [sizeVal, sizeFields] at hsz; omega
          have hsf : sizeFields fs ≤ fuel := by
            have h1 := le_max_right (sizeVal v + 1) (sizeFields fs)
            simp [sizeVal, sizeFields] at hsz; omega
          have hp : printVal (JVal.obj ((k, v) :: fs)) =
              '\x7b' :: (printStr k ++ ':' :: printVal v ++ printObjRest fs) := rfl
          have hm := ihM k v (printObjRest fs ++ rest) hwf'.1 hsv
          simp only [printStr, List.cons_append, List.append_assoc,
            List.singleton_append, List.nil_append] at hm
          rw [hp, parseVal.eq_def]
          simp only [printStr, List.cons_append, List.append_assoc,
            List.singleton_append, List.nil_append]
          simp only [skipWs_cons_of_not_ws _ (show jsonWs '\x7b' = false from by decide),
            skipWs_cons_of_not_ws _ (show jsonWs '"' = false from by decide)]
          simp only [show (('\x7b' : Char) = '"') = False from by simp,
            show (('\x7b' : Char) = '[') = False from by simp,
            show (('\x7b' : Char) = '\x7b') = True from by simp,
            show (('"' : Char) = '\x7d') = False from by simp,
            if_true, if_false, ite_true, ite_false]
          rw [hm]
          simp [ihO fs rest hwf'.2 hsf]
    refine ⟨stepV, ?_, ?_, ?_⟩
    · intro vs rest hwf hsz
      cases vs with
      | nil =>
        have hp : printArrRest ([] : List JVal) = [']'] := rfl
        rw [hp, parseArrRest.eq_def]
        simp [skipWs_cons_of_not_ws, jsonWs]
      | cons v vs =>
        have hwf' : wfVal v ∧ wfList vs := hwf
        have hsv : sizeVal v ≤ fuel := by
          have h1 := le_max_left (sizeVal v) (sizeList vs)
          simp [sizeList] at hsz; omega
        have hsl : sizeList vs ≤ fuel := by
          have h1 := le_max_right (sizeVal v) (sizeList vs)
          simp [sizeList] at hsz; omega
        have hp : printArrRest (v :: vs) = ',' :: (printVal v ++ printArrRest vs) := rfl
        rw [hp, parseArrRest.eq_def]
        simp only [List.cons_append, List.append_assoc]
        simp only [skipWs_cons_of_not_ws _ (show jsonWs ',' = false from by decide)]
        simp only [show ((',' : Char) = ']') = False from by simp,
          show ((',' : Char) = ',') = True from by simp, if_true, if_false,
          ite_true, ite_false]
        rw [ihV v _ hwf'.1 hsv]
        simp [ihA vs rest hwf'.2 hsl]
    · intro k v rest hwf hsz
      have hsv : sizeVal v ≤ fuel := by omega
      rw [parseMember.eq_def]
      simp only [printStr, List.cons_append, List.append_assoc, List.singleton_append,
        List.nil_append]
      simp only [skipWs_cons_of_not_ws _ (show jsonWs '"' = false from by decide)]
      simp only [show (('"' : Char) = '"') = True from by simp, if_true, ite_true]
      rw [parseStringBody_escape]
      simp only [skipWs_cons_of_not_ws _ (show jsonWs ':' = false from by decide)]
      simp only [show ((':' : Char) = ':') = True from by simp, if_true, ite_true]
      rw [ihV v rest hwf hsv]
      simp [show String.mk k.data = k from rfl]
    · intro fs rest hwf hsz
      cases fs with
      | nil =>
        have hp : printObjRest ([] : List (String × JVal)) = ['\x7d'] := rfl
        rw [hp, parseObjRest.eq_def]
        simp [skipWs_cons_of_not_ws, jsonWs]
      | cons f fs =>
        obtain ⟨k, v⟩ := f
        have hwf' : wfVal v ∧ wfFields fs := hwf
        have hsv : sizeVal v + 1 ≤ fuel := by
          have h1 := le_max_left (sizeVal v + 1) (sizeFields fs)
          simp [sizeFields] at hsz; omega
        have hsf : sizeFields fs ≤ fuel := by
          have h1 := le_max_right (sizeVal v + 1) (sizeFields fs)
          simp [sizeFields] at hsz; omega
        have hp : printObjRest ((k, v) :: fs) =
            ',' :: (printStr k ++ ':' :: printVal v ++ printObjRest fs) := rfl
        have hm := ihM k v (printObjRest fs ++ rest) hwf'.1 hsv
        simp only [printStr, List.cons_append, List.append_assoc,
          List.singleton_append, List.nil_append] at hm
        rw [hp, parseObjRest.eq_def]
        simp only [printStr, List.cons_append, List.append_assoc,
          List.singleton_append, List.nil_append]
        simp only [skipWs_cons_of_not_ws _ (show jsonWs ',' = false from by decide)]
        simp only [show ((',' : Char) = '\x7d') = False from by simp,
          show ((',' : Char) = ',') = True from by simp, if_true, if_false,
          ite_true, ite_false]
        rw [hm]
        simp [ihO fs rest hwf'.2 hsf]

theorem printVal_len_pos (v : JVal) (h : wfVal v) : 1 ≤ (printVal v).length := by
  obtain ⟨c, cs, hpv, -, -, -⟩ := printVal_head v h
  rw [hpv]
  simp

theorem printArrRest_len_pos (vs : List JVal) : 1 ≤ (printArrRest vs).length := by
  cases vs with
  | nil => simp [printArrRest]
  | cons v vs =>
    have hp : printArrRest (v :: vs) = ',' :: (printVal v ++ printArrRest vs) := rfl
    rw [hp]; simp

theorem printObjRest_len_pos (fs : List (String × JVal)) : 1 ≤ (printObjRest fs).length := by
  cases fs with
  | nil => simp [printObjRest]
  | cons f fs =>
    obtain ⟨k, v⟩ := f
    have hp : printObjRest ((k, v) :: fs) =
        ',' :: (printStr k ++ ':' :: printVal v ++ printObjRest fs) := rfl
    rw [hp]; simp

/-- The parsing fuel a value needs is bounded by its serialized length. -/
theorem size_le_len : ∀ n : Nat,
    (∀ v, wfVal v → sizeVal v ≤ n → sizeVal v ≤ (printVal v).length) ∧
    (∀ vs, wfList vs → sizeList vs ≤ n → sizeList vs ≤ (printArrRest vs).length) ∧
    (∀ fs, wfFields fs → sizeFields fs ≤ n → sizeFields fs ≤ (printObjRest fs).length) := by
  intro n
  induction n with
  | zero =>
    refine ⟨?_, ?_, ?_⟩
    · intro v _ hsz; have := sizeVal_pos v; omega
    · intro vs _ hsz; have := sizeList_pos vs; omega
    · intro fs _ hsz; have := sizeFields_pos fs; omega
  | succ n ih =>
    obtain ⟨ihV, ihA, ihO⟩ := ih
    refine ⟨?_, ?_, ?_⟩
    · intro v hwf hsz
      cases v with
      | null =>
        have hp : printVal JVal.null = ['n', 'u', 'l', 'l'] := rfl
        rw [hp]; simp [sizeVal]
      | bool b =>
        cases b with
        | true =>
          have hp : printVal (JVal.bool true) = ['t', 'r', 'u', 'e'] := rfl
          rw [hp]; simp [sizeVal]
        | false =>
          have hp : printVal (JVal.bool false) = ['f', 'a', 'l', 's', 'e'] := rfl
          rw [hp]; simp [sizeVal]
      | num raw => exact absurd hwf (by simp [wfVal])
      | str s =>
        have hp : printVal (JVal.str s) = '"' :: (escapeStr s.data ++ ['"']) := rfl
        rw [hp]; simp [sizeVal]
      | arr es =>
        cases es with
        | nil =>
          have hp : printVal (JVal.arr []) = ['[', ']'] := rfl
          rw [hp]; simp [sizeVal, sizeList]
        | cons v vs =>
          have hwf' : wfVal v ∧ wfList vs := hwf
          have hszv : sizeVal v ≤ n := by
            have h1 := le_max_left (sizeVal v) (sizeList vs)
            simp [sizeVal, sizeList] at hsz; omega
          have hszl : sizeList vs ≤ n := by
            have h1 := le_max_right (sizeVal v) (sizeList vs)
            simp [sizeVal, sizeList] at hsz; omega
          have hv := ihV v hwf'.1 hszv
          have ha := ihA vs hwf'.2 hszl
          have hp : printVal (JVal.arr (v :: vs)) =
              '[' :: (printVal v ++ printArrRest vs) := rfl
          have h1 := printVal_len_pos v hwf'.1
          have h2 := printArrRest_len_pos vs
          rw [hp]
          simp only [sizeVal, sizeList, List.length_cons, List.length_append]
          omega
      | obj fs =>
        cases fs with
        | nil =>
          have hp : printVal (JVal.obj []) = ['\x7b', '\x7d'] := rfl
          rw [hp]; simp [sizeVal, sizeFields]
        | cons f fs =>
          obtain ⟨k, v⟩ := f
          have hwf' : wfVal v ∧ wfFields fs := hwf
          have hszv : sizeVal v ≤ n := by
            have h1 := le_max_left (sizeVal v + 1) (sizeFields fs)
            simp [sizeVal, sizeFields] at hsz; omega
          have hszf : sizeFields fs ≤ n := by
            have h1 := le_max_right (sizeVal v + 1) (sizeFields fs)
            simp [sizeVal, sizeFields] at hsz; omega
          have hv := ihV v hwf'.1 hszv
          have ho := ihO fs hwf'.2 hszf
          have hp : printVal (JVal.obj ((k, v) :: fs)) =
              '\x7b' :: (printStr k ++ ':' :: printVal v ++ printObjRest fs) := rfl
          have h1 := printVal_len_pos v hwf'.1
          have h2 := printObjRest_len_pos fs
          rw [hp]
          simp only [sizeVal, sizeFields, printStr, List.length_cons, List.length_append]
          omega
    · intro vs hwf hsz
      cases vs with
      | nil => simp [printArrRest, sizeList]
      | cons v vs =>
        have hwf' : wfVal v ∧ wfList vs := hwf
        have hszv : sizeVal v ≤ n := by
          have h1 := le_max_left (sizeVal v) (sizeList vs)
          simp [sizeList] at hsz; omega
        have hszl : sizeList vs ≤ n := by
          have h1 := le_max_right (sizeVal v) (sizeList vs)
          simp [sizeList] at hsz; omega
        have hv := ihV v hwf'.1 hszv
        have ha := ihA vs hwf'.2 hszl
        have hp : printArrRest (v :: vs) = ',' :: (printVal v ++ printArrRest vs) := rfl
        have h1 := printVal_len_pos v hwf'.1
        have h2 := printArrRest_len_pos vs
        rw [hp]
        simp only [sizeList, List.length_cons, List.length_append]
        omega
    · intro fs hwf hsz
      cases fs with
      | nil => simp [printObjRest, sizeFields]
      | cons f fs =>
        obtain ⟨k, v⟩ := f
        have hwf' : wfVal v ∧ wfFields fs := hwf
        have hszv : sizeVal v ≤ n := by
          have h1 := le_max_left (sizeVal v + 1) (sizeFields fs)
          simp [sizeFields] at hsz; omega
        have hszf : sizeFields fs ≤ n := by
          have h1 := le_max_right (sizeVal v + 1) (sizeFields fs)
          simp [sizeFields] at hsz; omega
        have hv := ihV v hwf'.1 hszv
        have ho := ihO fs hwf'.2 hszf
        have hp : printObjRest ((k, v) :: fs) =
            ',' :: (printStr k ++ ':' :: printVal v ++ printObjRest fs) := rfl
        have h1 := printVal_len_pos v hwf'.1
        have h2 := printObjRest_len_pos fs
        rw [hp]
        simp only [sizeFields, printStr, List.length_cons, List.length_append]
        omega

/-- Parsing with `json.loads` inverts serialization on well-formed values. -/
theorem jsonLoads_print (v : JVal) (hwf : wfVal v) :
    jsonLoads (printVal v) = some v := by
  have hsz : sizeVal v ≤ (printVal v).length + 1 := by
    have := (size_le_len (sizeVal v)).1 v hwf le_rfl
    omega
  have h := (parse_printVal ((printVal v).length + 1)).1 v [] hwf hsz
  rw [List.append_nil] at h
  rw [jsonLoads, h]
  simp [skipWs]

example : jsonLoads "\x7b\x7d".data = some (JVal.obj []) := rfl

example : jsonLoads " \x7b \"a\" : [1, true, null] \x7d ".data =
    some (JVal.obj [("a", JVal.arr [JVal.num "1", JVal.bool true, JVal.null])]) := rfl

example : jsonLoads "not json".data = none := rfl

example : jsonLoads "\x7b\"corrected_text\": \x7d".data = none := rfl

/-!
## Helper lemmas about the listener queue
-/

/-- Whether the listener enqueues an inbound message. -/
def matchesBot (botUsername : String) (e : InEvent) : Bool :=
  e.sender == botUsername && hasPre responseTag.data e.text.data

theorem runListener_eq (botUsername : String) (queue : List String) (evs : List InEvent) :
    runListener botUsername queue evs =
      queue ++ (evs.filter (matchesBot botUsername)).map InEvent.text := by
  induction evs generalizing queue with
  | nil => simp [runListener]
  | cons e evs ih =>
    rw [show runListener botUsername queue (e :: evs) =
        runListener botUsername (handlerStep botUsername queue e) evs from rfl]
    rw [ih]
    rw [show handlerStep botUsername queue e =
        if matchesBot botUsername e then queue ++ [e.text] else queue from rfl]
    rw [List.filter_cons]
    by_cases h : matchesBot botUsername e
    · simp [h]
    · simp [h]

/-!
## Theorems for the claims
-/

set_option maxHeartbeats 1000000 in
/--
C2.  The wait on the hand-off channel (`asyncio.wait_for` on
`response_queue.get()` in `check_grammar`) fails on expiry with the timeout
failure value, which is distinct — as a value and by its carried message —
from the decode failure; on success the wait returns the raw reply text
received from the channel, and the outcome of `check_grammar` is obtained by
decoding exactly that text.
-/
theorem c2_timeout_distinct_from_decode :
    await_reply none = Except.error BotError.timeout ∧
    BotError.timeout ≠ BotError.invalidJson ∧
    errMsg BotError.timeout ≠ errMsg BotError.invalidJson ∧
    (∀ m : String, await_reply (some m) = Except.ok m) ∧
    (∀ (pending : List String) (text : String),
      (check_grammar pending text none).outcome = Except.error BotError.timeout) ∧
    (∀ (pending : List String) (text m : String),
      (check_grammar pending text (some m)).outcome = parse_response m) := by
  refine ⟨rfl, by decide, by decide, fun m => rfl, fun pending text => rfl,
    fun pending text m => rfl⟩

/--
C5.  A `/check` request whose (well-formed) body has a missing or empty
`text` field is answered with status 400 and a body whose `error` field is
set, and the configured text handler is never invoked.
-/
theorem c5_empty_text_rejected (fields : List (String × JVal)) (handlerSet : Bool)
    (handler : JVal → JVal)
    (h : objGet fields "text" = none ∨ objGet fields "text" = some (JVal.str "")) :
    handle_check (some (JVal.obj fields)) handlerSet handler =
      { status := 400, body := JVal.obj [("error", JVal.str "No text provided")],
        handlerCalled := false } ∧
    objGet [("error", JVal.str "No text provided")] "error" =
      some (JVal.str "No text provided") := by
  refine ⟨?_, rfl⟩
  rcases h with h | h <;> simp [handle_check, h, pyTruthy]

/-- C5 witness. -/
theorem c5_empty_text_rejected_witness :
    handle_check (some (JVal.obj [])) true (fun v => v) =
      { status := 400, body := JVal.obj [("error", JVal.str "No text provided")],
        handlerCalled := false } :=
  (c5_empty_text_rejected [] true (fun v => v) (Or.inl rfl)).1

/--
C6 counterexample.  The hand-off channel is an `asyncio.Queue()` with no
`maxsize`: after the listener observes two tagged messages from the bot, the
queue holds two messages at once, so "at most one inbound message at every
reachable state" fails.
-/
theorem c6_counterexample_two_queued :
    runListener "bot" [] [⟨"bot", "RESPONSE:a"⟩, ⟨"bot", "RESPONSE:b"⟩] =
      ["RESPONSE:a", "RESPONSE:b"] ∧
    ¬ (runListener "bot" [] [⟨"bot", "RESPONSE:a"⟩, ⟨"bot", "RESPONSE:b"⟩]).length ≤ 1 := by
  exact ⟨rfl, by decide⟩

/--
C6 amended.  The hand-off channel is an unbounded FIFO queue: after the
listener observes any sequence of inbound messages, it holds exactly the
tagged messages from the configured sender received since it was last
drained, in arrival order — possibly more than one.
-/
theorem c6_queue_unbounded_fifo (botUsername : String) (queue : List String)
    (evs : List InEvent) :
    runListener botUsername queue evs =
      queue ++ (evs.filter (matchesBot botUsername)).map InEvent.text :=
  runListener_eq botUsername queue evs

/--
C7.  Every message the listener pushes onto the hand-off channel comes from
the configured sender and starts with the tag literal `"RESPONSE:"`; all
other inbound messages are ignored, so the decode step is only ever reached
by tagged replies.
-/
theorem c7_listener_filters (botUsername : String) (evs : List InEvent) (m : String)
    (hm : m ∈ runListener botUsername [] evs) :
    hasPre responseTag.data m.data = true ∧
    ∃ e, e ∈ evs ∧ e.sender = botUsername ∧ e.text = m := by
  rw [runListener_eq, List.nil_append] at hm
  obtain ⟨e, he, rfl⟩ := List.mem_map.mp hm
  obtain ⟨hmem, hmatch⟩ := List.mem_filter.mp he
  simp only [matchesBot, Bool.and_eq_true, beq_iff_eq] at hmatch
  exact ⟨hmatch.2, e, hmem, hmatch.1, rfl⟩

/-- C7 witness. -/
theorem c7_listener_filters_witness :
    hasPre responseTag.data "RESPONSE:x".data = true ∧
    ∃ e, e ∈ [(⟨"bot", "RESPONSE:x"⟩ : InEvent)] ∧ e.sender = "bot" ∧
      e.text = "RESPONSE:x" :=
  c7_listener_filters "bot" [⟨"bot", "RESPONSE:x"⟩] "RESPONSE:x" (by decide)

/--
C9.  Decoding is deterministic: two applications of `_parse_response` to the
same well-formed tagged text yield structurally equal results.
-/
theorem c9_decode_deterministic (s : String) (v w : JVal)
    (h1 : parse_response s = Except.ok v) (h2 : parse_response s = Except.ok w) :
    v = w := by
  rw [h1] at h2
  injection h2

/-- C9 witness. -/
theorem c9_decode_deterministic_witness : (JVal.obj [] : JVal) = JVal.obj [] :=
  c9_decode_deterministic "RESPONSE:\x7b\x7d" (JVal.obj []) (JVal.obj []) rfl rfl

/--
C10.  `_parse_response` removes the first `len("RESPONSE:")` = 9 characters
of its input unconditionally and never checks the tag: any two inputs equal
after their first nine characters decode identically, and an input that does
not start with the tag still decodes successfully whenever the remainder is
valid JSON.
-/
theorem c10_tag_prefix_unchecked :
    (∀ p t : String, p.length = 9 →
      parse_response (p ++ t) = parse_response ("RESPONSE:" ++ t)) ∧
    parse_response "ABCDEFGHI\x7b\x7d" = Except.ok (JVal.obj []) ∧
    hasPre responseTag.data "ABCDEFGHI\x7b\x7d".data = false := by
  refine ⟨?_, rfl, by decide⟩
  intro p t hp
  have hp' : p.data.length = 9 := hp
  have hd : (p ++ t).data.drop responseTag.length = t.data := by
    rw [String.data_append]
    rw [show responseTag.length = p.data.length from by rw [hp']; rfl]
    exact List.drop_left p.data t.data
  have hd2 : ("RESPONSE:" ++ t).data.drop responseTag.length = t.data := by
    rw [String.data_append]
    exact List.drop_left "RESPONSE:".data t.data
  rw [parse_response, parse_response, stripTagAndFence, stripTagAndFence, hd, hd2]

/-- C10 witness. -/
theorem c10_tag_prefix_unchecked_witness :
    parse_response ("ABCDEFGHI" ++ "null") = parse_response ("RESPONSE:" ++ "null") :=
  c10_tag_prefix_unchecked.1 "ABCDEFGHI" "null" rfl


/--
C1 counterexample.  `_parse_response` performs no required-field check: the
reply `"RESPONSE:\x7b\x7d"` — whose remainder is well-formed JSON but lacks both
`corrected_text` and `error_analysis` — decodes successfully to the empty
object instead of failing, so the claim that decode fails on missing
required fields is false.
-/
theorem c1_counterexample_missing_fields_accepted :
    parse_response "RESPONSE:\x7b\x7d" = Except.ok (JVal.obj []) ∧
    objGet ([] : List (String × JVal)) "corrected_text" = none ∧
    objGet ([] : List (String × JVal)) "error_analysis" = none ∧
    resultOfJVal (JVal.obj []) = none :=
  ⟨rfl, rfl, rfl, rfl⟩

/--
C1 amended.  `_parse_response` fails with the decode failure exactly when
the remainder after tag and fence stripping is not well-formed JSON; it
validates no required fields, returning whatever JSON value parses, and it
is total: every call yields either the decode failure or a fully parsed
value, never a partial structure.
-/
theorem c1_decode_fails_only_on_malformed_json (s : String) :
    (jsonLoads (stripTagAndFence s) = none →
      parse_response s = Except.error BotError.invalidJson) ∧
    (∀ v, jsonLoads (stripTagAndFence s) = some v → parse_response s = Except.ok v) ∧
    (parse_response s = Except.error BotError.invalidJson ∨
      ∃ v, parse_response s = Except.ok v) := by
  refine ⟨?_, ?_, ?_⟩
  · intro h; rw [parse_response, h]
  · intro v h; rw [parse_response, h]
  · rw [parse_response]
    cases jsonLoads (stripTagAndFence s) with
    | none => exact Or.inl rfl
    | some v => exact Or.inr ⟨v, rfl⟩

/-- C1 witness. -/
theorem c1_decode_fails_only_on_malformed_json_witness :
    parse_response "RESPONSE:not json" = Except.error BotError.invalidJson ∧
    parse_response "RESPONSE:\x7b\"a\":1\x7d" =
      Except.ok (JVal.obj [("a", JVal.num "1")]) :=
  ⟨(c1_decode_fails_only_on_malformed_json "RESPONSE:not json").1 rfl,
   (c1_decode_fails_only_on_malformed_json "RESPONSE:\x7b\"a\":1\x7d").2.1
     (JVal.obj [("a", JVal.num "1")]) rfl⟩

set_option maxHeartbeats 1000000 in
/--
C4.  When the exchange fails — timeout or decode failure — the intake
handler `_handle_text` returns (never raises) the fallback result: its
`corrected_text` equals the original input, its `error_analysis` is a
single synthetic entry whose explanation carries the message of the
failure, and in the timeout case that explanation contains the substring
`"time"`.
-/
theorem c4_fallback_on_failure (text : String) (pending : List String)
    (reply : Option String) (e : BotError) (_hne : text ≠ "")
    (h : (check_grammar pending text reply).outcome = Except.error e) :
    handle_text text ((check_grammar pending text reply).outcome) = error_result text e ∧
    resultOfJVal (error_result text e) =
      some ⟨text, none, [⟨text, text, "Error: " ++ errMsg e⟩]⟩ ∧
    (e = BotError.timeout →
      ∃ a b : String, "Error: " ++ errMsg e = a ++ "time" ++ b) := by
  refine ⟨by rw [h]; rfl, rfl, ?_⟩
  rintro rfl
  exact ⟨"Error: Bot did not respond in ", "", rfl⟩

set_option maxHeartbeats 1000000 in
/-- C4 witness. -/
theorem c4_fallback_on_failure_witness :
    handle_text "he go school" ((check_grammar [] "he go school" none).outcome) =
      error_result "he go school" BotError.timeout :=
  (c4_fallback_on_failure "he go school" [] none BotError.timeout (by decide) rfl).1

set_option maxHeartbeats 1000000 in
/-- C2 witness. -/
theorem c2_timeout_distinct_from_decode_witness :
    (check_grammar [] "he go school" none).outcome = Except.error BotError.timeout :=
  c2_timeout_distinct_from_decode.2.2.2.2.1 [] "he go school"

set_option maxHeartbeats 1000000 in
/--
C3.  In every `check_grammar` exchange, each drain of a stale queued
message happens strictly before the outbound send (which sits at trace
position `pending.length`, after one drain per pending message); on success
the decoded value comes from the reply received strictly after the send,
and the outcome never depends on the drained stale messages.
-/
theorem c3_drain_before_send (pending : List String) (text : String)
    (reply : Option String) :
    (∀ (i : Nat) (m : String),
      (check_grammar pending text reply).trace[i]? = some (GEvent.drained m) →
      ∀ (j : Nat) (p : String),
        (check_grammar pending text reply).trace[j]? = some (GEvent.sent p) →
        i < j) ∧
    (check_grammar pending text reply).trace[pending.length]? =
      some (GEvent.sent (build_prompt text)) ∧
    (∀ m, reply = some m →
      (check_grammar pending text reply).outcome = parse_response m ∧
      (check_grammar pending text reply).trace[pending.length + 1]? =
        some (GEvent.received m)) ∧
    (check_grammar pending text reply).outcome = (check_grammar [] text reply).outcome := by
  have hlen : (pending.map GEvent.drained).length = pending.length := List.length_map _ _
  cases reply with
  | none =>
    have htr : (check_grammar pending text none).trace =
        pending.map GEvent.drained ++
          GEvent.sent (build_prompt text) :: [GEvent.timedOut] := rfl
    refine ⟨?_, ?_, ?_, rfl⟩
    · intro i m hi j p hj
      rw [htr, List.getElem?_append] at hi hj
      by_cases hjlt : j < (pending.map GEvent.drained).length
      · rw [if_pos hjlt, List.getElem?_map] at hj
        cases hp : pending[j]? with
        | none => rw [hp] at hj; simp at hj
        | some q => rw [hp] at hj; simp at hj
      · by_cases hilt : i < (pending.map GEvent.drained).length
        · have := Nat.le_of_not_lt hjlt
          omega
        · exfalso
          rw [if_neg hilt] at hi
          rcases hd : i - (pending.map GEvent.drained).length with _ | k
          · rw [hd] at hi; simp at hi
          · rw [hd] at hi
            rcases k with _ | k2 <;> simp at hi
    · rw [htr, List.getElem?_append_right (by omega)]
      rw [hlen, Nat.sub_self]
      rfl
    · intro m hm
      cases hm
  | some r =>
    have htr : (check_grammar pending text (some r)).trace =
        pending.map GEvent.drained ++
          GEvent.sent (build_prompt text) :: [GEvent.received r] := rfl
    refine ⟨?_, ?_, ?_, rfl⟩
    · intro i m hi j p hj
      rw [htr, List.getElem?_append] at hi hj
      by_cases hjlt : j < (pending.map GEvent.drained).length
      · rw [if_pos hjlt, List.getElem?_map] at hj
        cases hp : pending[j]? with
        | none => rw [hp] at hj; simp at hj
        | some q => rw [hp] at hj; simp at hj
      · by_cases hilt : i < (pending.map GEvent.drained).length
        · have := Nat.le_of_not_lt hjlt
          omega
        · exfalso
          rw [if_neg hilt] at hi
          rcases hd : i - (pending.map GEvent.drained).length with _ | k
          · rw [hd] at hi; simp at hi
          · rw [hd] at hi
            rcases k with _ | k2 <;> simp at hi
    · rw [htr, List.getElem?_append_right (by omega)]
      rw [hlen, Nat.sub_self]
      rfl
    · intro m hm
      injection hm with hm
      subst hm
      refine ⟨rfl, ?_⟩
      rw [htr, List.getElem?_append_right (by omega)]
      rw [hlen, Nat.add_sub_cancel_left]
      rfl

set_option maxHeartbeats 1000000 in
/-- C3 witness. -/
theorem c3_drain_before_send_witness :
    (check_grammar ["RESPONSE:stale"] "he go school" (some "RESPONSE:null")).outcome =
      parse_response "RESPONSE:null" :=
  ((c3_drain_before_send ["RESPONSE:stale"] "he go school"
      (some "RESPONSE:null")).2.2.1 "RESPONSE:null" rfl).1

theorem printObjRest_ends (fs : List (String × JVal)) :
    ∃ l, printObjRest fs = l ++ ['\x7d'] := by
  induction fs with
  | nil => exact ⟨[], rfl⟩
  | cons f fs ih =>
    obtain ⟨k, v⟩ := f
    obtain ⟨l, hl⟩ := ih
    refine ⟨',' :: (printStr k ++ ':' :: printVal v ++ l), ?_⟩
    rw [show printObjRest ((k, v) :: fs) =
        ',' :: (printStr k ++ ':' :: printVal v ++ printObjRest fs) from rfl, hl]
    simp

theorem stripChars_sandwich (c d : Char) (mid : List Char)
    (hc : pyWs c = false) (hd : pyWs d = false) :
    stripChars (c :: (mid ++ [d])) = c :: (mid ++ [d]) := by
  have h1 : (c :: (mid ++ [d])).reverse = d :: (mid.reverse ++ [c]) := by simp
  rw [stripChars, List.dropWhile_cons_of_neg (by simp [hc]), h1,
    List.dropWhile_cons_of_neg (by simp [hd])]
  simp

theorem stripOpenFence_brace (l : List Char) :
    stripOpenFence ('\x7b' :: l) = '\x7b' :: l := by
  have h : hasPre "```json".data ('\x7b' :: l) = false := by
    simp [hasPre, show "```json".data = '`' :: "``json".data from rfl]
  simp [stripOpenFence, h]

theorem stripCloseFence_brace (l : List Char) :
    stripCloseFence (l ++ ['\x7d']) = l ++ ['\x7d'] := by
  have hrev : (l ++ ['\x7d']).reverse = '\x7d' :: l.reverse := by simp
  have h : hasPre "```".data ('\x7d' :: l.reverse) = false := by
    simp [hasPre, show "```".data = '`' :: "``".data from rfl]
  rw [show stripCloseFence (l ++ ['\x7d']) =
      if hasPre "```".data ((l ++ ['\x7d']).reverse) then
        ((((l ++ ['\x7d']).reverse).drop 3).dropWhile pyWs).reverse
      else l ++ ['\x7d'] from rfl]
  rw [hrev, h]
  simp

theorem correctionOfJVal_inv (c : Correction) :
    correctionOfJVal (correctionToJVal c) = some c := rfl

theorem wf_correctionToJVal (c : Correction) : wfVal (correctionToJVal c) :=
  ⟨trivial, trivial, trivial, trivial⟩

theorem wf_corrections (l : List Correction) : wfList (l.map correctionToJVal) := by
  induction l with
  | nil => trivial
  | cons c cs ih => exact ⟨wf_correctionToJVal c, ih⟩

theorem wf_resultToJVal (r : DecodedResult) : wfVal (resultToJVal r) := by
  obtain ⟨ct, pt, ea⟩ := r
  cases pt with
  | none => exact ⟨trivial, wf_corrections ea, trivial⟩
  | some p => exact ⟨trivial, trivial, wf_corrections ea, trivial⟩

theorem correctionsOfJVal_inv (l : List Correction) :
    correctionsOfJVal (l.map correctionToJVal) = some l := by
  induction l with
  | nil => rfl
  | cons c cs ih =>
    rw [List.map_cons]
    rw [correctionsOfJVal.eq_def]
    simp [correctionOfJVal_inv, ih]

theorem resultOfJVal_inv (r : DecodedResult) :
    resultOfJVal (resultToJVal r) = some r := by
  obtain ⟨ct, pt, ea⟩ := r
  cases pt with
  | none =>
    have h1 : objGet [("corrected_text", JVal.str ct),
        ("error_analysis", JVal.arr (ea.map correctionToJVal))] "corrected_text" =
        some (JVal.str ct) := rfl
    have h2 : objGet [("corrected_text", JVal.str ct),
        ("error_analysis", JVal.arr (ea.map correctionToJVal))] "error_analysis" =
        some (JVal.arr (ea.map correctionToJVal)) := rfl
    have h3 : objGet [("corrected_text", JVal.str ct),
        ("error_analysis", JVal.arr (ea.map correctionToJVal))] "persian_translation" =
        none := rfl
    rw [show resultToJVal ⟨ct, none, ea⟩ = JVal.obj [("corrected_text", JVal.str ct),
        ("error_analysis", JVal.arr (ea.map correctionToJVal))] from rfl]
    rw [resultOfJVal.eq_def]
    simp [h1, h2, h3, correctionsOfJVal_inv]
  | some p =>
    have h1 : objGet [("corrected_text", JVal.str ct),
        ("persian_translation", JVal.str p),
        ("error_analysis", JVal.arr (ea.map correctionToJVal))] "corrected_text" =
        some (JVal.str ct) := rfl
    have h2 : objGet [("corrected_text", JVal.str ct),
        ("persian_translation", JVal.str p),
        ("error_analysis", JVal.arr (ea.map correctionToJVal))] "error_analysis" =
        some (JVal.arr (ea.map correctionToJVal)) := rfl
    have h3 : objGet [("corrected_text", JVal.str ct),
        ("persian_translation", JVal.str p),
        ("error_analysis", JVal.arr (ea.map correctionToJVal))] "persian_translation" =
        some (JVal.str p) := rfl
    rw [show resultToJVal ⟨ct, some p, ea⟩ = JVal.obj [("corrected_text", JVal.str ct),
        ("persian_translation", JVal.str p),
        ("error_analysis", JVal.arr (ea.map correctionToJVal))] from rfl]
    rw [resultOfJVal.eq_def]
    simp [h1, h2, h3, correctionsOfJVal_inv]

theorem parse_response_print_obj (k : String) (w : JVal) (fs : List (String × JVal))
    (hwf : wfVal (JVal.obj ((k, w) :: fs))) :
    parse_response ("RESPONSE:" ++ String.mk (printVal (JVal.obj ((k, w) :: fs)))) =
      Except.ok (JVal.obj ((k, w) :: fs)) := by
  have hdrop : ("RESPONSE:" ++
      String.mk (printVal (JVal.obj ((k, w) :: fs)))).data.drop responseTag.length =
      printVal (JVal.obj ((k, w) :: fs)) := by
    rw [String.data_append]
    exact List.drop_left "RESPONSE:".data _
  obtain ⟨ltail, hend⟩ := printObjRest_ends fs
  have hshape : printVal (JVal.obj ((k, w) :: fs)) =
      '\x7b' :: ((printStr k ++ ':' :: printVal w ++ ltail) ++ ['\x7d']) := by
    rw [show printVal (JVal.obj ((k, w) :: fs)) =
        '\x7b' :: (printStr k ++ ':' :: printVal w ++ printObjRest fs) from rfl, hend]
    simp
  rw [parse_response, stripTagAndFence, hdrop, hshape]
  rw [stripChars_sandwich _ _ _ (by decide) (by decide)]
  rw [stripOpenFence_brace]
  rw [show '\x7b' :: ((printStr k ++ ':' :: printVal w ++ ltail) ++ ['\x7d']) =
      ('\x7b' :: (printStr k ++ ':' :: printVal w ++ ltail)) ++ ['\x7d'] from rfl]
  rw [stripCloseFence_brace]
  rw [show ('\x7b' :: (printStr k ++ ':' :: printVal w ++ ltail)) ++ ['\x7d'] =
      '\x7b' :: ((printStr k ++ ':' :: printVal w ++ ltail) ++ ['\x7d']) from rfl]
  rw [stripChars_sandwich _ _ _ (by decide) (by decide)]
  rw [← hshape, jsonLoads_print _ hwf]

/--
C8.  Round-trip: serializing any DecodedResult-shaped document as JSON,
prefixing the tag literal `"RESPONSE:"`, and decoding reproduces the
original document exactly — `corrected_text`, every `error_analysis` entry,
and an optional `persian_translation` passed through unchanged.
-/
theorem c8_encode_decode_roundtrip (r : DecodedResult) :
    parse_response ("RESPONSE:" ++ encodeResult r) = Except.ok (resultToJVal r) ∧
    resultOfJVal (resultToJVal r) = some r := by
  constructor
  · obtain ⟨ct, pt, ea⟩ := r
    cases pt with
    | none => exact parse_response_print_obj _ _ _ (wf_resultToJVal ⟨ct, none, ea⟩)
    | some p => exact parse_response_print_obj _ _ _ (wf_resultToJVal ⟨ct, some p, ea⟩)
  · exact resultOfJVal_inv r

end GrammarChecker
